import Mathlib

/-!
Shallow embedding of the classification-and-aggregation core of the
market-area crawler (src/main.py, src/config.py).

Texts are `String`s; Python list-of-float arithmetic is modelled over `ℚ`;
Python dicts are association lists built in insertion order with
replace-on-rewrite semantics.
-/

namespace Crawler

/-- Python `str.lower()` on the character list of a string. -/
def strLower (s : String) : String := ⟨s.data.map Char.toLower⟩

/-- `pat` occurs at the start of `l` (character-by-character prefix test). -/
def isPrefixAt : List Char → List Char → Bool
  | [], _ => true
  | _ :: _, [] => false
  | p :: ps, c :: cs => p == c && isPrefixAt ps cs

/-- Python's `pat in text` substring operator on lists of characters:
`pat` occurs contiguously somewhere in `l`. -/
def containsSub : List Char → List Char → Bool
  | pat, [] => pat.isEmpty
  | pat, c :: cs => isPrefixAt pat (c :: cs) || containsSub pat cs

/-- `NewsArticle` (src/main.py lines 25-34): one classified news item.
`sentiment_score` is modelled over `ℚ`. -/
structure NewsArticle where
  title : String
  content : String
  url : String
  market_areas : List String
  locations : List String
  sentiment_score : ℚ
deriving DecidableEq

/-- `MarketAreaCrawler` state (src/main.py lines 39-61): tracked category
lists plus the two hard-coded keyword dictionaries. -/
structure MarketAreaCrawler where
  market_areas : List String
  locations : List String
  market_keywords : List (String × List String)
  location_keywords : List (String × List String)

/-- The hard-coded market keyword dictionary (src/main.py lines 45-51). -/
def defaultMarketKeywords : List (String × List String) :=
  [("tecnologia", ["tech", "tecnologia", "software", "ai", "intelligenza artificiale", "startup"]),
   ("finanza", ["finanza", "banking", "banche", "investimenti", "mercati finanziari"]),
   ("energia", ["energia", "petrolio", "gas", "rinnovabili", "solare", "eolico"]),
   ("automotive", ["auto", "automotive", "veicoli", "trasporti", "mobilità"]),
   ("immobiliare", ["immobiliare", "real estate", "case", "proprietà", "edilizia"])]

/-- The hard-coded location keyword dictionary (src/main.py lines 54-61). -/
def defaultLocationKeywords : List (String × List String) :=
  [("italia", ["italia", "italy", "romano", "milano", "napoli", "torino"]),
   ("europa", ["europa", "europe", "ue", "european union", "bruxelles"]),
   ("usa", ["usa", "america", "stati uniti", "washington", "new york"]),
   ("cina", ["cina", "china", "beijing", "shanghai", "hong kong"]),
   ("giappone", ["giappone", "japan", "tokyo", "osaka"]),
   ("germania", ["germania", "germany", "berlino", "monaco"])]

/-- `MarketAreaCrawler.__init__` (src/main.py lines 39-61): lowercases the
tracked lists and installs the hard-coded keyword dictionaries. -/
def mkCrawler (market_areas locations : List String) : MarketAreaCrawler :=
  { market_areas := market_areas.map strLower
    locations := locations.map strLower
    market_keywords := defaultMarketKeywords
    location_keywords := defaultLocationKeywords }

/-- Tracked market list from src/config.py `MARKET_AREAS` (lines 5-13). -/
def configMarketAreas : List String :=
  ["tecnologia", "finanza", "energia", "automotive", "immobiliare", "salute", "turismo"]

/-- Tracked location list from src/config.py `LOCATIONS` (lines 16-25). -/
def configLocations : List String :=
  ["italia", "europa", "usa", "cina", "giappone", "germania", "francia", "regno unito"]

/-- Common body of `find_market_areas` / `find_locations`
(src/main.py lines 105-131): walk the keyword dictionary in order; keep a
category when it is in the tracked list and any of its keyword phrases is
a substring of the lowercased text. -/
def findCategories (tracked : List String) (dict : List (String × List String))
    (text : String) : List String :=
  let text_lower := strLower text
  dict.filterMap fun p =>
    if p.1 ∈ tracked ∧ p.2.any (fun k => containsSub k.data text_lower.data)
    then some p.1 else none

/-- `MarketAreaCrawler.find_market_areas` (src/main.py lines 105-117). -/
def find_market_areas (c : MarketAreaCrawler) (text : String) : List String :=
  findCategories c.market_areas c.market_keywords text

/-- `MarketAreaCrawler.find_locations` (src/main.py lines 119-131). -/
def find_locations (c : MarketAreaCrawler) (text : String) : List String :=
  findCategories c.locations c.location_keywords text

/-- Raw candidate article before classification
(the dict built by `extract_articles_from_page`). -/
structure RawArticle where
  title : String
  url : String
  content : String

/-- Per-candidate classification step of `analyze_website`
(src/main.py lines 218-235): tag the content, discard the candidate
unless both category sets are non-empty, otherwise score sentiment and
build the `NewsArticle` with content truncated to 1000 characters. -/
def classify_article (c : MarketAreaCrawler) (scorer : String → ℚ)
    (raw : RawArticle) : Option NewsArticle :=
  let content := raw.content
  let found_markets := find_market_areas c content
  let found_locations := find_locations c content
  if found_markets ≠ [] ∧ found_locations ≠ [] then
    some { title := raw.title
           content := ⟨content.data.take 1000⟩
           url := raw.url
           market_areas := found_markets
           locations := found_locations
           sentiment_score := scorer content }
  else none

/-- The classification loop of `analyze_website` (src/main.py lines
208-242) over an already-fetched candidate list. -/
def analyze_articles (c : MarketAreaCrawler) (scorer : String → ℚ)
    (raws : List RawArticle) : List NewsArticle :=
  raws.filterMap (classify_article c scorer)

/-- Python `round(x, 2)`: round to 2 decimal places, ties to even. -/
def round2 (q : ℚ) : ℚ :=
  let x := q * 100
  let f := ⌊x⌋
  let frac := x - f
  let r := if frac < 1/2 then f
           else if frac > 1/2 then f + 1
           else if f % 2 = 0 then f else f + 1
  (r : ℚ) / 100

/-- The trend conditional expression
`'positive' if avg > 60 else 'negative' if avg < 40 else 'neutral'`
(src/main.py lines 262, 273, 291). -/
def classifyTrend (s : ℚ) : String :=
  if s > 60 then "positive" else if s < 40 then "negative" else "neutral"

/-- `sum(a.sentiment_score for a in l) / len(l)` over a list of articles. -/
def meanScore (l : List NewsArticle) : ℚ :=
  (l.map (·.sentiment_score)).sum / l.length

/-- Value of a per-market / per-location report entry
(src/main.py lines 259-263 and 270-274): count, mean rounded to 2
decimals, and trend classified from the unrounded mean. -/
structure CategoryStats where
  article_count : ℕ
  average_sentiment : ℚ
  sentiment_trend : String
deriving DecidableEq

/-- Value of a matrix report entry (src/main.py lines 286-292). -/
structure MatrixStats where
  market : String
  location : String
  article_count : ℕ
  average_sentiment : ℚ
  sentiment_trend : String
deriving DecidableEq

/-- The report dict (src/main.py lines 246-252); `timestamp` is the
`datetime.now().isoformat()` string, taken as a parameter. -/
structure Report where
  timestamp : String
  total_articles : ℕ
  markets : List (String × CategoryStats)
  locations : List (String × CategoryStats)
  market_location_matrix : List (String × MatrixStats)

/-- `[a for a in articles if market in a.market_areas]`
(src/main.py line 256). -/
def marketSubset (articles : List NewsArticle) (m : String) : List NewsArticle :=
  articles.filter fun a => m ∈ a.market_areas

/-- `[a for a in articles if location in a.locations]`
(src/main.py line 267). -/
def locationSubset (articles : List NewsArticle) (l : String) : List NewsArticle :=
  articles.filter fun a => l ∈ a.locations

/-- `[a for a in articles if market in a.market_areas and location in
a.locations]` (src/main.py lines 280-283). -/
def pairSubset (articles : List NewsArticle) (m l : String) : List NewsArticle :=
  articles.filter fun a => m ∈ a.market_areas ∧ l ∈ a.locations

/-- `f"{market}_{location}"` (src/main.py line 279). -/
def matrixKey (m l : String) : String := m ++ "_" ++ l

/-- Stats record for a non-empty per-category subset
(src/main.py lines 258-263). -/
def categoryEntry (sub : List NewsArticle) : CategoryStats :=
  let avg := meanScore sub
  { article_count := sub.length
    average_sentiment := round2 avg
    sentiment_trend := classifyTrend avg }

/-- Stats record for a non-empty matrix subset (src/main.py lines 285-292). -/
def matrixEntry (m l : String) (sub : List NewsArticle) : MatrixStats :=
  let avg := meanScore sub
  { market := m
    location := l
    article_count := sub.length
    average_sentiment := round2 avg
    sentiment_trend := classifyTrend avg }

/-- Python dict assignment `d[k] = v` on an association list: replace the
value at the first occurrence of `k` in place, else append. -/
def dictInsert {α : Type} : List (String × α) → String → α → List (String × α)
  | [], k, v => [(k, v)]
  | (k', v') :: rest, k, v =>
    if k' = k then (k, v) :: rest else (k', v') :: dictInsert rest k v

/-- One loop iteration of the aggregation loops in
`generate_market_report`: write the item's entry into the dict when its
matching subset is non-empty, else leave the dict unchanged. -/
def buildStep {α β : Type} (keyOf : α → String) (subOf : α → List NewsArticle)
    (entryOf : α → β) (acc : List (String × β)) (it : α) : List (String × β) :=
  if subOf it ≠ [] then dictInsert acc (keyOf it) (entryOf it) else acc

/-- Common shape of the three aggregation loops in
`generate_market_report`: fold over the iteration items, and for each
item whose matching subset is non-empty, write its entry into the dict. -/
def buildDict {α β : Type} (items : List α) (keyOf : α → String)
    (subOf : α → List NewsArticle) (entryOf : α → β) : List (String × β) :=
  items.foldl (buildStep keyOf subOf entryOf) []

/-- All (market, location) pairs in loop order (src/main.py lines 277-278). -/
def trackedPairs (c : MarketAreaCrawler) : List (String × String) :=
  c.market_areas.foldr (fun m acc => c.locations.map (fun l => (m, l)) ++ acc) []

/-- `MarketAreaCrawler.generate_market_report` (src/main.py lines 244-294). -/
def generate_market_report (c : MarketAreaCrawler) (articles : List NewsArticle)
    (timestamp : String) : Report :=
  { timestamp := timestamp
    total_articles := articles.length
    markets :=
      buildDict c.market_areas id (marketSubset articles)
        (fun m => categoryEntry (marketSubset articles m))
    locations :=
      buildDict c.locations id (locationSubset articles)
        (fun l => categoryEntry (locationSubset articles l))
    market_location_matrix :=
      buildDict (trackedPairs c) (fun p => matrixKey p.1 p.2)
        (fun p => pairSubset articles p.1 p.2)
        (fun p => matrixEntry p.1 p.2 (pairSubset articles p.1 p.2)) }

/-! ### Concrete inputs used by witnesses and counterexamples -/

/-- A run tracking one market and one location. -/
def wCrawler : MarketAreaCrawler := mkCrawler ["tecnologia"] ["italia"]

/-- A tagged article for `tecnologia`/`italia` with the given score. -/
def mkTagged (s : ℚ) : NewsArticle :=
  { title := "t", content := "c", url := "u",
    market_areas := ["tecnologia"], locations := ["italia"], sentiment_score := s }

/-- The spec's mean example: scores 80 and 40 on the same market. -/
def w1Articles : List NewsArticle := [mkTagged 80, mkTagged 40]

/-- Scores 60.01, 60, 60: mean 60.00333…, which rounds to 60.00. -/
def cexArticles : List NewsArticle :=
  [mkTagged (mkRat 6001 100), mkTagged 60, mkTagged 60]

/-- Scores 60, 60, 60: mean exactly 60. -/
def cexArticles2 : List NewsArticle := [mkTagged 60, mkTagged 60, mkTagged 60]

/-- A run tracking markets `a`,`b` and locations `x`,`y`. -/
def c7Crawler : MarketAreaCrawler := mkCrawler ["a", "b"] ["x", "y"]

/-- An article tagged with market `a` and locations `x`,`y`. -/
def c7Article : NewsArticle :=
  { title := "t", content := "c", url := "u",
    market_areas := ["a"], locations := ["x", "y"], sentiment_score := 50 }

/-- A candidate whose content matches market `tecnologia` and location
`italia`. -/
def wRaw : RawArticle := { title := "t", url := "u", content := "tech milano" }

/-- The `NewsArticle` that classifying `wRaw` produces. -/
def wTagged : NewsArticle :=
  { title := "t", content := "tech milano", url := "u",
    market_areas := ["tecnologia"], locations := ["italia"], sentiment_score := 50 }

/-- A candidate whose content matches market `tecnologia` but no tracked
location. -/
def wRawNoLoc : RawArticle := { title := "t", url := "u", content := "tech only" }

/-! ### Dictionary and fold lemmas -/

theorem mem_dictInsert {α : Type} {l : List (String × α)} {k k' : String} {v v' : α}
    (h : (k', v') ∈ dictInsert l k v) : (k', v') ∈ l ∨ (k' = k ∧ v' = v) := by
  induction l with
  | nil =>
    simp only [dictInsert, List.mem_singleton] at h
    exact Or.inr ⟨congrArg Prod.fst h, congrArg Prod.snd h⟩
  | cons hd tl ih =>
    obtain ⟨hk, hv⟩ := hd
    simp only [dictInsert] at h
    by_cases he : hk = k
    · rw [if_pos he] at h
      rcases List.mem_cons.1 h with h1 | h1
      · exact Or.inr ⟨congrArg Prod.fst h1, congrArg Prod.snd h1⟩
      · exact Or.inl (List.mem_cons_of_mem _ h1)
    · rw [if_neg he] at h
      rcases List.mem_cons.1 h with h1 | h1
      · exact Or.inl (h1 ▸ List.mem_cons_self _ _)
      · rcases ih h1 with h2 | h2
        · exact Or.inl (List.mem_cons_of_mem _ h2)
        · exact Or.inr h2

theorem self_mem_dictInsert {α : Type} (l : List (String × α)) (k : String) (v : α) :
    (k, v) ∈ dictInsert l k v := by
  induction l with
  | nil => simp [dictInsert]
  | cons hd tl ih =>
    obtain ⟨hk, hv⟩ := hd
    by_cases he : hk = k
    · simp [dictInsert, he]
    · simp only [dictInsert, if_neg he]
      exact List.mem_cons_of_mem _ ih

theorem mem_dictInsert_of_mem {α : Type} {l : List (String × α)} {k k' : String}
    {v v' : α} (h : (k', v') ∈ l) (hor : k' ≠ k ∨ v' = v) :
    (k', v') ∈ dictInsert l k v := by
  induction l with
  | nil => cases h
  | cons hd tl ih =>
    obtain ⟨hk, hv⟩ := hd
    simp only [dictInsert]
    by_cases he : hk = k
    · rw [if_pos he]
      rcases List.mem_cons.1 h with h1 | h1
      · rcases hor with hne | hev
        · exact absurd ((congrArg Prod.fst h1).trans he) hne
        · have : v' = v := hev
          have hk' : k' = k := (congrArg Prod.fst h1).trans he
          exact hk' ▸ this ▸ List.mem_cons_self _ _
      · exact List.mem_cons_of_mem _ h1
    · rw [if_neg he]
      rcases List.mem_cons.1 h with h1 | h1
      · exact h1 ▸ List.mem_cons_self _ _
      · exact List.mem_cons_of_mem _ (ih h1)

theorem mem_foldl_buildStep {α β : Type} (keyOf : α → String)
    (subOf : α → List NewsArticle) (entryOf : α → β) :
    ∀ (items : List α) (acc : List (String × β)) (k : String) (v : β),
      (k, v) ∈ items.foldl (buildStep keyOf subOf entryOf) acc →
      (k, v) ∈ acc ∨ ∃ it, it ∈ items ∧ keyOf it = k ∧ entryOf it = v ∧ subOf it ≠ [] := by
  intro items
  induction items with
  | nil => intro acc k v h; exact Or.inl h
  | cons hd tl ih =>
    intro acc k v h
    simp only [List.foldl_cons] at h
    rcases ih _ k v h with h1 | h1
    · simp only [buildStep] at h1
      by_cases hs : subOf hd ≠ []
      · rw [if_pos hs] at h1
        rcases mem_dictInsert h1 with h2 | h2
        · exact Or.inl h2
        · exact Or.inr ⟨hd, List.mem_cons_self _ _, h2.1.symm, h2.2.symm, hs⟩
      · rw [if_neg hs] at h1
        exact Or.inl h1
    · obtain ⟨it, hit, rest⟩ := h1
      exact Or.inr ⟨it, List.mem_cons_of_mem _ hit, rest⟩

theorem mem_buildDict {α β : Type} {items : List α} {keyOf : α → String}
    {subOf : α → List NewsArticle} {entryOf : α → β} {k : String} {v : β}
    (h : (k, v) ∈ buildDict items keyOf subOf entryOf) :
    ∃ it, it ∈ items ∧ keyOf it = k ∧ entryOf it = v ∧ subOf it ≠ [] := by
  rcases mem_foldl_buildStep keyOf subOf entryOf items [] k v h with h1 | h1
  · cases h1
  · exact h1

theorem mem_foldl_buildStep_keep {α β : Type} {keyOf : α → String}
    {subOf : α → List NewsArticle} {entryOf : α → β} {k : String} {v : β} :
    ∀ (items : List α) (acc : List (String × β)), (k, v) ∈ acc →
      (∀ it, it ∈ items → keyOf it = k → subOf it ≠ [] → entryOf it = v) →
      (k, v) ∈ items.foldl (buildStep keyOf subOf entryOf) acc := by
  intro items
  induction items with
  | nil => intro acc h _; exact h
  | cons hd tl ih =>
    intro acc h hall
    simp only [List.foldl_cons]
    refine ih _ ?_ (fun it hit => hall it (List.mem_cons_of_mem _ hit))
    simp only [buildStep]
    by_cases hs : subOf hd ≠ []
    · rw [if_pos hs]
      by_cases hk : keyOf hd = k
      · rw [hk, hall hd (List.mem_cons_self _ _) hk hs]
        exact self_mem_dictInsert _ _ _
      · exact mem_dictInsert_of_mem h (Or.inl fun he => hk he.symm)
    · rw [if_neg hs]; exact h

theorem mem_foldl_buildStep_intro {α β : Type} {keyOf : α → String}
    {subOf : α → List NewsArticle} {entryOf : α → β} {it : α} :
    ∀ (items : List α) (acc : List (String × β)), it ∈ items → subOf it ≠ [] →
      (∀ it', it' ∈ items → keyOf it' = keyOf it → subOf it' ≠ [] →
        entryOf it' = entryOf it) →
      (keyOf it, entryOf it) ∈ items.foldl (buildStep keyOf subOf entryOf) acc := by
  intro items
  induction items with
  | nil => intro acc h; cases h
  | cons hd tl ih =>
    intro acc hit hsub huniq
    simp only [List.foldl_cons]
    rcases List.mem_cons.1 hit with heq | hmem
    · refine mem_foldl_buildStep_keep tl _ ?_ ?_
      · subst heq
        simp only [buildStep, if_pos hsub]
        exact self_mem_dictInsert _ _ _
      · exact fun it' hit' => huniq it' (List.mem_cons_of_mem _ hit')
    · exact ih _ hmem hsub fun it' hit' => huniq it' (List.mem_cons_of_mem _ hit')

theorem mem_buildDict_intro {α β : Type} {items : List α} {keyOf : α → String}
    {subOf : α → List NewsArticle} {entryOf : α → β} {it : α}
    (hit : it ∈ items) (hsub : subOf it ≠ [])
    (huniq : ∀ it', it' ∈ items → keyOf it' = keyOf it → subOf it' ≠ [] →
      entryOf it' = entryOf it) :
    (keyOf it, entryOf it) ∈ buildDict items keyOf subOf entryOf :=
  mem_foldl_buildStep_intro items [] hit hsub huniq

/-! ### Tagger and classifier lemmas -/

theorem mem_findCategories {tracked : List String} {dict : List (String × List String)}
    {text cat : String} :
    cat ∈ findCategories tracked dict text ↔
      ∃ kws, (cat, kws) ∈ dict ∧ cat ∈ tracked ∧
        kws.any (fun k => containsSub k.data (strLower text).data) = true := by
  unfold findCategories
  simp only [List.mem_filterMap]
  constructor
  · rintro ⟨p, hp, heq⟩
    by_cases hc : p.1 ∈ tracked ∧ p.2.any (fun k => containsSub k.data (strLower text).data)
    · rw [if_pos hc] at heq
      obtain heq := Option.some.inj heq
      refine ⟨p.2, ?_, heq ▸ hc.1, hc.2⟩
      have hpe : (p.1, p.2) = p := rfl
      rw [heq] at hpe
      rw [hpe]
      exact hp
    · rw [if_neg hc] at heq
      cases heq
  · rintro ⟨kws, hmem, htr, hany⟩
    exact ⟨(cat, kws), hmem, if_pos ⟨htr, hany⟩⟩

theorem mem_trackedPairs {c : MarketAreaCrawler} {m l : String} :
    (m, l) ∈ trackedPairs c ↔ m ∈ c.market_areas ∧ l ∈ c.locations := by
  unfold trackedPairs
  induction c.market_areas with
  | nil => simp
  | cons hd tl ih =>
    simp only [List.foldr_cons, List.mem_append, List.mem_cons, List.mem_map, ih]
    constructor
    · rintro (⟨l', hl', heq⟩ | ⟨hm, hl⟩)
      · injection heq with h1 h2
        subst h1; subst h2
        exact ⟨Or.inl rfl, hl'⟩
      · exact ⟨Or.inr hm, hl⟩
    · rintro ⟨hm | hm, hl⟩
      · subst hm
        exact Or.inl ⟨l, hl, rfl⟩
      · exact Or.inr ⟨hm, hl⟩

theorem classify_article_eq_some {c : MarketAreaCrawler} {scorer : String → ℚ}
    {raw : RawArticle} {a : NewsArticle} (h : classify_article c scorer raw = some a) :
    a = { title := raw.title
          content := ⟨raw.content.data.take 1000⟩
          url := raw.url
          market_areas := find_market_areas c raw.content
          locations := find_locations c raw.content
          sentiment_score := scorer raw.content } ∧
      find_market_areas c raw.content ≠ [] ∧ find_locations c raw.content ≠ [] := by
  unfold classify_article at h
  by_cases hc : find_market_areas c raw.content ≠ [] ∧ find_locations c raw.content ≠ []
  · rw [if_pos hc] at h
    exact ⟨(Option.some.inj h).symm, hc⟩
  · rw [if_neg hc] at h
    cases h

/-- Evaluation rule for `round2` when the fractional part is below 1/2. -/
theorem round2_of_floor {q : ℚ} {f : ℤ} (hf : ⌊q * 100⌋ = f)
    (hlt : q * 100 - f < 1/2) : round2 q = f / 100 := by
  simp only [round2]
  rw [hf, if_pos hlt]

/-- A non-empty filter result contains a witnessing element. -/
theorem exists_of_filter_ne_nil {α : Type} {p : α → Bool} {l : List α}
    (h : l.filter p ≠ []) : ∃ x, x ∈ l ∧ p x = true := by
  rcases he : l.filter p with _ | ⟨hd, tl⟩
  · exact absurd he h
  · have : hd ∈ l.filter p := he ▸ List.mem_cons_self _ _
    exact ⟨hd, (List.mem_filter.1 this).1, (List.mem_filter.1 this).2⟩

/-! ### Evaluation helpers for the single-market witness runs -/

theorem wCrawler_markets_eval {articles : List NewsArticle} {ts : String}
    (hsub : marketSubset articles "tecnologia" = articles) (hne : articles ≠ []) :
    (generate_market_report wCrawler articles ts).markets =
      [("tecnologia", categoryEntry articles)] := by
  have htr : wCrawler.market_areas = ["tecnologia"] := by decide
  show buildDict wCrawler.market_areas id (marketSubset articles)
      (fun m => categoryEntry (marketSubset articles m)) = _
  rw [htr]
  simp only [buildDict, List.foldl_cons, List.foldl_nil, buildStep, id_eq, hsub]
  rw [if_pos hne]
  rfl

theorem categoryEntry_eval {l : List NewsArticle} {n : ℕ} {mu r : ℚ} {t : String}
    (hlen : l.length = n) (hmean : meanScore l = mu) (hr : round2 mu = r)
    (ht : classifyTrend mu = t) :
    categoryEntry l = ⟨n, r, t⟩ := by
  simp only [categoryEntry]
  rw [hmean, hlen, hr, ht]

theorem round2_sixty : round2 (60:ℚ) = 60 := by
  rw [round2_of_floor (q := 60) (f := 6000) (by norm_num) (by norm_num)]
  norm_num

theorem round2_cex : round2 (18001/300 : ℚ) = 60 := by
  rw [round2_of_floor (q := 18001/300) (f := 6000) (by norm_num) (by norm_num)]
  norm_num

theorem catEval_w1 : categoryEntry w1Articles = ⟨2, 60, "neutral"⟩ :=
  categoryEntry_eval (by decide) (by norm_num [meanScore, w1Articles, mkTagged])
    round2_sixty (by decide)

theorem catEval_cex : categoryEntry cexArticles = ⟨3, 60, "positive"⟩ := by
  have hq : (mkRat 6001 100 : ℚ) = 6001/100 := by
    rw [Rat.mkRat_eq_div]
    norm_num
  exact categoryEntry_eval (by decide)
    (by norm_num [meanScore, cexArticles, mkTagged, hq])
    round2_cex (by norm_num [classifyTrend])

theorem catEval_cex2 : categoryEntry cexArticles2 = ⟨3, 60, "neutral"⟩ :=
  categoryEntry_eval (by decide) (by norm_num [meanScore, cexArticles2, mkTagged])
    round2_sixty (by decide)

theorem marketsEval_w1 {ts : String} :
    (generate_market_report wCrawler w1Articles ts).markets =
      [("tecnologia", ⟨2, 60, "neutral"⟩)] := by
  rw [wCrawler_markets_eval (by decide) (by decide), catEval_w1]

theorem marketsEval_cex {ts : String} :
    (generate_market_report wCrawler cexArticles ts).markets =
      [("tecnologia", ⟨3, 60, "positive"⟩)] := by
  rw [wCrawler_markets_eval (by decide) (by decide), catEval_cex]

theorem marketsEval_cex2 {ts : String} :
    (generate_market_report wCrawler cexArticles2 ts).markets =
      [("tecnologia", ⟨3, 60, "neutral"⟩)] := by
  rw [wCrawler_markets_eval (by decide) (by decide), catEval_cex2]

/-! ### Claim theorems -/

/-- C3: trend classification is a total function of a sentiment score with
no ambiguous region: `score > 60` yields `"positive"`, `score < 40` yields
`"negative"`, otherwise `"neutral"`; the boundary scores 40 and 60 yield
`"neutral"`, 60.01 yields `"positive"`, 39.99 yields `"negative"`. -/
theorem trend_classification_total (s : ℚ) :
    (classifyTrend s = "positive" ∨ classifyTrend s = "negative" ∨
      classifyTrend s = "neutral") ∧
    (s > 60 → classifyTrend s = "positive") ∧
    (s < 40 → classifyTrend s = "negative") ∧
    (40 ≤ s → s ≤ 60 → classifyTrend s = "neutral") ∧
    classifyTrend 40 = "neutral" ∧ classifyTrend 60 = "neutral" ∧
    classifyTrend (6001/100) = "positive" ∧
    classifyTrend (3999/100) = "negative" := by
  refine ⟨?_, ?_, ?_, ?_, by decide, by decide, by norm_num [classifyTrend],
    by norm_num [classifyTrend]⟩
  · unfold classifyTrend
    split_ifs <;> simp
  · intro h
    unfold classifyTrend
    rw [if_pos h]
  · intro h
    unfold classifyTrend
    rw [if_neg (by linarith), if_pos h]
  · intro h1 h2
    unfold classifyTrend
    rw [if_neg (by linarith), if_neg (by linarith)]

/-- Witness for C3 at score 61. -/
theorem trend_classification_total_witness :
    (61:ℚ) > 60 ∧ classifyTrend 61 = "positive" :=
  ⟨by norm_num, (trend_classification_total 61).2.1 (by norm_num)⟩

/-- C8: aggregation is deterministic and timestamp-independent: the
markets, locations and matrix mappings (and the total count) of the
report are a pure function of the article collection and the tracked
lists; only the timestamp field differs between two runs. -/
theorem report_deterministic (c : MarketAreaCrawler) (articles : List NewsArticle)
    (ts1 ts2 : String) :
    (generate_market_report c articles ts1).markets =
      (generate_market_report c articles ts2).markets ∧
    (generate_market_report c articles ts1).locations =
      (generate_market_report c articles ts2).locations ∧
    (generate_market_report c articles ts1).market_location_matrix =
      (generate_market_report c articles ts2).market_location_matrix ∧
    (generate_market_report c articles ts1).total_articles =
      (generate_market_report c articles ts2).total_articles :=
  ⟨rfl, rfl, rfl, rfl⟩

/-- C4: the keyword tagger returns a subset of the keys of the vocabulary
(and of the tracked list), and is complete: a category of the vocabulary
that is tracked and has a keyword occurring case-insensitively in the
text is in the result. -/
theorem tagger_subset_complete (tracked : List String)
    (dict : List (String × List String)) (text cat : String) :
    (cat ∈ findCategories tracked dict text →
      cat ∈ dict.map Prod.fst ∧ cat ∈ tracked) ∧
    (∀ kws kw, (cat, kws) ∈ dict → cat ∈ tracked → kw ∈ kws →
      containsSub kw.data (strLower text).data = true →
      cat ∈ findCategories tracked dict text) := by
  constructor
  · intro h
    rcases mem_findCategories.1 h with ⟨kws, hmem, htr, _⟩
    exact ⟨List.mem_map.2 ⟨(cat, kws), hmem, rfl⟩, htr⟩
  · intro kws kw hmem htr hkw hsub
    exact mem_findCategories.2 ⟨kws, hmem, htr, List.any_eq_true.2 ⟨kw, hkw, hsub⟩⟩

/-- Witness for C4: the keyword `tech` in the text `Tech news` tags the
category `tecnologia`. -/
theorem tagger_subset_complete_witness :
    "tecnologia" ∈ findCategories ["tecnologia"] defaultMarketKeywords "Tech news" :=
  (tagger_subset_complete ["tecnologia"] defaultMarketKeywords "Tech news"
      "tecnologia").2
    ["tech", "tecnologia", "software", "ai", "intelligenza artificiale", "startup"]
    "tech" (by decide) (by decide) (by decide) (by decide)

/-- C5: a `NewsArticle` is constructed from a candidate iff both the
matched market set and the matched location set are non-empty; every
constructed article, and every article in the analyzed collection, has
non-empty `market_areas` and `locations`. -/
theorem classifier_requires_both (c : MarketAreaCrawler) (scorer : String → ℚ) :
    (∀ raw : RawArticle, (classify_article c scorer raw).isSome = true ↔
      (find_market_areas c raw.content ≠ [] ∧ find_locations c raw.content ≠ [])) ∧
    (∀ raw a, classify_article c scorer raw = some a →
      a.market_areas ≠ [] ∧ a.locations ≠ []) ∧
    (∀ raws a, a ∈ analyze_articles c scorer raws →
      a.market_areas ≠ [] ∧ a.locations ≠ []) := by
  refine ⟨?_, ?_, ?_⟩
  · intro raw
    unfold classify_article
    by_cases hc : find_market_areas c raw.content ≠ [] ∧
        find_locations c raw.content ≠ []
    · rw [if_pos hc]
      simpa using hc
    · rw [if_neg hc]
      simpa using hc
  · intro raw a h
    obtain ⟨ha, hm, hl⟩ := classify_article_eq_some h
    subst ha
    exact ⟨hm, hl⟩
  · intro raws a h
    unfold analyze_articles at h
    rcases List.mem_filterMap.1 h with ⟨raw, _, heq⟩
    obtain ⟨ha, hm, hl⟩ := classify_article_eq_some heq
    subst ha
    exact ⟨hm, hl⟩

/-- Witness for C5: classifying `wRaw` (content `tech milano`) yields
`wTagged`, whose market and location sets are non-empty; the
market-only candidate `wRawNoLoc` is discarded. -/
theorem classifier_requires_both_witness :
    classify_article wCrawler (fun _ => 50) wRaw = some wTagged ∧
    (wTagged.market_areas ≠ [] ∧ wTagged.locations ≠ []) ∧
    classify_article wCrawler (fun _ => 50) wRawNoLoc = none :=
  ⟨by decide,
   (classifier_requires_both wCrawler (fun _ => 50)).2.1 wRaw wTagged (by decide),
   by decide⟩

/-- C9: the content of every constructed `NewsArticle` is the candidate
content truncated to the first 1000 characters, so its length never
exceeds 1000. -/
theorem content_truncated (c : MarketAreaCrawler) (scorer : String → ℚ)
    (raw : RawArticle) (a : NewsArticle)
    (h : classify_article c scorer raw = some a) :
    a.content = (⟨raw.content.data.take 1000⟩ : String) ∧
    a.content.length ≤ 1000 := by
  obtain ⟨ha, _, _⟩ := classify_article_eq_some h
  subst ha
  refine ⟨rfl, ?_⟩
  show (raw.content.data.take 1000).length ≤ 1000
  rw [List.length_take]
  exact min_le_left _ _

/-- Witness for C9 at the concrete candidate `wRaw`. -/
theorem content_truncated_witness :
    wTagged.content = (⟨wRaw.content.data.take 1000⟩ : String) ∧
    wTagged.content.length ≤ 1000 :=
  content_truncated wCrawler (fun _ => 50) wRaw wTagged (by decide)

/-- C1: every emitted per-market entry reports `article_count` equal to
the size of that market's matching subset and `average_sentiment` equal
to the mean of the subset's scores rounded to 2 decimals; the same holds
for per-location entries and for matrix entries over their pair subset. -/
theorem report_count_mean (c : MarketAreaCrawler) (articles : List NewsArticle)
    (ts : String) :
    (∀ m st, (m, st) ∈ (generate_market_report c articles ts).markets →
      st.article_count = (marketSubset articles m).length ∧
      st.average_sentiment = round2 (meanScore (marketSubset articles m))) ∧
    (∀ l st, (l, st) ∈ (generate_market_report c articles ts).locations →
      st.article_count = (locationSubset articles l).length ∧
      st.average_sentiment = round2 (meanScore (locationSubset articles l))) ∧
    (∀ k st, (k, st) ∈ (generate_market_report c articles ts).market_location_matrix →
      st.article_count = (pairSubset articles st.market st.location).length ∧
      st.average_sentiment =
        round2 (meanScore (pairSubset articles st.market st.location))) := by
  refine ⟨?_, ?_, ?_⟩
  · intro m st h
    obtain ⟨m2, _, hkey, hentry, _⟩ := mem_buildDict h
    have hm : m2 = m := hkey
    subst hm
    rw [← hentry]
    exact ⟨rfl, rfl⟩
  · intro l st h
    obtain ⟨l2, _, hkey, hentry, _⟩ := mem_buildDict h
    have hl : l2 = l := hkey
    subst hl
    rw [← hentry]
    exact ⟨rfl, rfl⟩
  · intro k st h
    obtain ⟨p, _, _, hentry, _⟩ := mem_buildDict h
    rw [← hentry]
    exact ⟨rfl, rfl⟩

/-- Witness for C1: the spec's mean example (scores 80 and 40 on market
`tecnologia`) reports count 2 and average 60. -/
theorem report_count_mean_witness :
    ("tecnologia", (⟨2, 60, "neutral"⟩ : CategoryStats)) ∈
      (generate_market_report wCrawler w1Articles "ts").markets ∧
    (⟨2, 60, "neutral"⟩ : CategoryStats).article_count =
      (marketSubset w1Articles "tecnologia").length ∧
    (⟨2, 60, "neutral"⟩ : CategoryStats).average_sentiment =
      round2 (meanScore (marketSubset w1Articles "tecnologia")) := by
  have hmem : ("tecnologia", (⟨2, 60, "neutral"⟩ : CategoryStats)) ∈
      (generate_market_report wCrawler w1Articles "ts").markets := by
    rw [marketsEval_w1]
    exact List.mem_singleton.2 rfl
  exact ⟨hmem, (report_count_mean wCrawler w1Articles "ts").1 _ _ hmem⟩

/-- C2 (amended): in every emitted record the trend equals the
classification of the unrounded mean of the matching subset; it is not in
general a function of the emitted (rounded) `average_sentiment`. -/
theorem trend_from_unrounded_mean (c : MarketAreaCrawler)
    (articles : List NewsArticle) (ts : String) :
    (∀ m st, (m, st) ∈ (generate_market_report c articles ts).markets →
      st.sentiment_trend = classifyTrend (meanScore (marketSubset articles m))) ∧
    (∀ l st, (l, st) ∈ (generate_market_report c articles ts).locations →
      st.sentiment_trend = classifyTrend (meanScore (locationSubset articles l))) ∧
    (∀ k st, (k, st) ∈ (generate_market_report c articles ts).market_location_matrix →
      st.sentiment_trend =
        classifyTrend (meanScore (pairSubset articles st.market st.location))) := by
  refine ⟨?_, ?_, ?_⟩
  · intro m st h
    obtain ⟨m2, _, hkey, hentry, _⟩ := mem_buildDict h
    have hm : m2 = m := hkey
    subst hm
    rw [← hentry]
    rfl
  · intro l st h
    obtain ⟨l2, _, hkey, hentry, _⟩ := mem_buildDict h
    have hl : l2 = l := hkey
    subst hl
    rw [← hentry]
    rfl
  · intro k st h
    obtain ⟨p, _, _, hentry, _⟩ := mem_buildDict h
    rw [← hentry]
    rfl

/-- Counterexample to C2 as stated: with scores 60.01, 60, 60 the
`tecnologia` entry is emitted with `average_sentiment` 60 (the mean
60.00333… rounded to 2 decimals) and trend `"positive"` (classified from
the unrounded mean), while classifying the emitted value 60 gives
`"neutral"`; the all-60 collection emits the same `average_sentiment` 60
with trend `"neutral"`, so trend is not a function of the emitted value. -/
theorem trend_not_determined_by_rounded_mean :
    ("tecnologia", (⟨3, 60, "positive"⟩ : CategoryStats)) ∈
      (generate_market_report wCrawler cexArticles "ts").markets ∧
    ("tecnologia", (⟨3, 60, "neutral"⟩ : CategoryStats)) ∈
      (generate_market_report wCrawler cexArticles2 "ts").markets ∧
    (⟨3, 60, "positive"⟩ : CategoryStats).sentiment_trend ≠
      classifyTrend (⟨3, 60, "positive"⟩ : CategoryStats).average_sentiment := by
  refine ⟨?_, ?_, by decide⟩
  · rw [marketsEval_cex]
    exact List.mem_singleton.2 rfl
  · rw [marketsEval_cex2]
    exact List.mem_singleton.2 rfl

/-- Witness for the amended C2 at the 60.01/60/60 collection: the emitted
trend `"positive"` equals the classification of the unrounded mean. -/
theorem trend_from_unrounded_mean_witness :
    ("tecnologia", (⟨3, 60, "positive"⟩ : CategoryStats)) ∈
      (generate_market_report wCrawler cexArticles "ts").markets ∧
    (⟨3, 60, "positive"⟩ : CategoryStats).sentiment_trend =
      classifyTrend (meanScore (marketSubset cexArticles "tecnologia")) := by
  have hmem : ("tecnologia", (⟨3, 60, "positive"⟩ : CategoryStats)) ∈
      (generate_market_report wCrawler cexArticles "ts").markets := by
    rw [marketsEval_cex]
    exact List.mem_singleton.2 rfl
  exact ⟨hmem, (trend_from_unrounded_mean wCrawler cexArticles "ts").1 _ _ hmem⟩

/-- C6: every key present in the markets/locations/matrix mappings has a
non-empty matching subset and count at least 1; a market or location with
an empty subset never appears as a key, and no matrix entry exists for a
pair with an empty subset. -/
theorem nonempty_entries (c : MarketAreaCrawler) (articles : List NewsArticle)
    (ts : String) :
    (∀ m st, (m, st) ∈ (generate_market_report c articles ts).markets →
      marketSubset articles m ≠ [] ∧ 1 ≤ st.article_count) ∧
    (∀ m, marketSubset articles m = [] →
      ∀ st, (m, st) ∉ (generate_market_report c articles ts).markets) ∧
    (∀ l st, (l, st) ∈ (generate_market_report c articles ts).locations →
      locationSubset articles l ≠ [] ∧ 1 ≤ st.article_count) ∧
    (∀ l, locationSubset articles l = [] →
      ∀ st, (l, st) ∉ (generate_market_report c articles ts).locations) ∧
    (∀ k st, (k, st) ∈ (generate_market_report c articles ts).market_location_matrix →
      pairSubset articles st.market st.location ≠ [] ∧ 1 ≤ st.article_count) ∧
    (∀ m l, pairSubset articles m l = [] →
      ∀ k st, (k, st) ∈ (generate_market_report c articles ts).market_location_matrix →
        ¬(st.market = m ∧ st.location = l)) := by
  refine ⟨?_, ?_, ?_, ?_, ?_, ?_⟩
  · intro m st h
    obtain ⟨m2, _, hkey, hentry, hne⟩ := mem_buildDict h
    have hm : m2 = m := hkey
    subst hm
    refine ⟨hne, ?_⟩
    rw [← hentry]
    exact List.length_pos.2 hne
  · intro m hempty st h
    obtain ⟨m2, _, hkey, _, hne⟩ := mem_buildDict h
    have hm : m2 = m := hkey
    subst hm
    exact hne hempty
  · intro l st h
    obtain ⟨l2, _, hkey, hentry, hne⟩ := mem_buildDict h
    have hl : l2 = l := hkey
    subst hl
    refine ⟨hne, ?_⟩
    rw [← hentry]
    exact List.length_pos.2 hne
  · intro l hempty st h
    obtain ⟨l2, _, hkey, _, hne⟩ := mem_buildDict h
    have hl : l2 = l := hkey
    subst hl
    exact hne hempty
  · intro k st h
    obtain ⟨p, _, _, hentry, hne⟩ := mem_buildDict h
    rw [← hentry]
    exact ⟨hne, List.length_pos.2 hne⟩
  · intro m l hempty k st h hloc
    obtain ⟨p, _, _, hentry, hne⟩ := mem_buildDict h
    have h1 : p.1 = m := by
      rw [← hloc.1, ← hentry]
      rfl
    have h2 : p.2 = l := by
      rw [← hloc.2, ← hentry]
      rfl
    rw [h1, h2] at hne
    exact hne hempty

/-- Witness for C6: the emitted `tecnologia` entry has a non-empty subset
and count ≥ 1, and the empty-subset market `finanza` is absent. -/
theorem nonempty_entries_witness :
    (("tecnologia", (⟨2, 60, "neutral"⟩ : CategoryStats)) ∈
      (generate_market_report wCrawler w1Articles "ts").markets ∧
      marketSubset w1Articles "tecnologia" ≠ [] ∧
      1 ≤ (⟨2, 60, "neutral"⟩ : CategoryStats).article_count) ∧
    ("finanza", (⟨0, 0, "neutral"⟩ : CategoryStats)) ∉
      (generate_market_report wCrawler w1Articles "ts").markets := by
  have hmem : ("tecnologia", (⟨2, 60, "neutral"⟩ : CategoryStats)) ∈
      (generate_market_report wCrawler w1Articles "ts").markets := by
    rw [marketsEval_w1]
    exact List.mem_singleton.2 rfl
  refine ⟨⟨hmem, (nonempty_entries wCrawler w1Articles "ts").1 _ _ hmem⟩, ?_⟩
  exact (nonempty_entries wCrawler w1Articles "ts").2.1 "finanza" (by decide) _

/-- C7: over the cartesian product of the tracked lists, an article is in
the pair subset for `(m, l)` iff it is an input article with
`m ∈ market_areas` and `l ∈ locations`; when that subset is non-empty the
matrix contains the entry for `(m, l)` aggregating exactly that subset,
and when it is empty no matrix entry with that key exists (assuming the
composite string keys of tracked pairs do not collide). -/
theorem matrix_pair_contribution (c : MarketAreaCrawler)
    (articles : List NewsArticle) (ts m l : String)
    (hm : m ∈ c.market_areas) (hl : l ∈ c.locations)
    (hinj : ∀ m2 ∈ c.market_areas, ∀ l2 ∈ c.locations,
      matrixKey m2 l2 = matrixKey m l → m2 = m ∧ l2 = l) :
    (∀ a, a ∈ pairSubset articles m l ↔
      (a ∈ articles ∧ m ∈ a.market_areas ∧ l ∈ a.locations)) ∧
    (pairSubset articles m l ≠ [] →
      (matrixKey m l, matrixEntry m l (pairSubset articles m l)) ∈
        (generate_market_report c articles ts).market_location_matrix) ∧
    (pairSubset articles m l = [] → ∀ st,
      (matrixKey m l, st) ∉
        (generate_market_report c articles ts).market_location_matrix) := by
  refine ⟨?_, ?_, ?_⟩
  · intro a
    simp [pairSubset, List.mem_filter]
  · intro hne
    have hit : (m, l) ∈ trackedPairs c := mem_trackedPairs.2 ⟨hm, hl⟩
    exact mem_buildDict_intro hit hne (fun p hp hkey _ => by
      obtain ⟨hp1, hp2⟩ := mem_trackedPairs.1 (by
        have : (p.1, p.2) = p := rfl
        rw [this]
        exact hp)
      obtain ⟨he1, he2⟩ := hinj p.1 hp1 p.2 hp2 hkey
      rw [he1, he2])
  · intro hempty st h
    obtain ⟨p, hp, hkey, _, hne⟩ := mem_buildDict h
    obtain ⟨hp1, hp2⟩ := mem_trackedPairs.1 (by
      have : (p.1, p.2) = p := rfl
      rw [this]
      exact hp)
    obtain ⟨he1, he2⟩ := hinj p.1 hp1 p.2 hp2 hkey
    rw [he1, he2] at hne
    exact hne hempty

/-- Witness for C7: with tracked markets `a b`, locations `x y`, and one
article tagged `markets=[a], locations=[x,y]`, the matrix contains the
`(a,x)` entry, the article contributes to `(a,y)`, and no `(b,x)` entry
exists. -/
theorem matrix_pair_contribution_witness :
    ((matrixKey "a" "x", matrixEntry "a" "x" (pairSubset [c7Article] "a" "x")) ∈
      (generate_market_report c7Crawler [c7Article] "ts").market_location_matrix) ∧
    (c7Article ∈ pairSubset [c7Article] "a" "y") ∧
    ((matrixKey "b" "x", matrixEntry "b" "x" [c7Article]) ∉
      (generate_market_report c7Crawler [c7Article] "ts").market_location_matrix) := by
  refine ⟨?_, ?_, ?_⟩
  · exact (matrix_pair_contribution c7Crawler [c7Article] "ts" "a" "x"
      (by decide) (by decide) (by decide)).2.1 (by decide)
  · exact ((matrix_pair_contribution c7Crawler [c7Article] "ts" "a" "y"
      (by decide) (by decide) (by decide)).1 c7Article).2
      ⟨List.mem_singleton.2 rfl, by decide, by decide⟩
  · exact (matrix_pair_contribution c7Crawler [c7Article] "ts" "b" "x"
      (by decide) (by decide) (by decide)).2.2 (by decide) _

/-- C10: the effective tagging vocabulary is the intersection of the
tracked list passed to the crawler with the keys of the hard-coded
keyword dictionaries: every tagged category is a key of the dictionary
and a (lowercased) tracked category; the shipped config's `salute`,
`turismo`, `francia` and `regno unito` are never tagged; and every
category in any analyzed article or report key is a dictionary key. -/
theorem effective_vocabulary (areas locs : List String) (text cat : String) :
    (cat ∈ find_market_areas (mkCrawler areas locs) text →
      cat ∈ defaultMarketKeywords.map Prod.fst ∧ cat ∈ areas.map strLower) ∧
    (cat ∈ find_locations (mkCrawler areas locs) text →
      cat ∈ defaultLocationKeywords.map Prod.fst ∧ cat ∈ locs.map strLower) ∧
    "salute" ∉ find_market_areas (mkCrawler configMarketAreas configLocations) text ∧
    "turismo" ∉ find_market_areas (mkCrawler configMarketAreas configLocations) text ∧
    "francia" ∉ find_locations (mkCrawler configMarketAreas configLocations) text ∧
    "regno unito" ∉ find_locations (mkCrawler configMarketAreas configLocations) text ∧
    (∀ (scorer : String → ℚ) raws a,
      a ∈ analyze_articles (mkCrawler areas locs) scorer raws →
      (∀ m, m ∈ a.market_areas → m ∈ defaultMarketKeywords.map Prod.fst) ∧
      (∀ l, l ∈ a.locations → l ∈ defaultLocationKeywords.map Prod.fst)) ∧
    (∀ (scorer : String → ℚ) raws ts m st,
      (m, st) ∈ (generate_market_report (mkCrawler areas locs)
        (analyze_articles (mkCrawler areas locs) scorer raws) ts).markets →
      m ∈ defaultMarketKeywords.map Prod.fst) ∧
    (∀ (scorer : String → ℚ) raws ts l st,
      (l, st) ∈ (generate_market_report (mkCrawler areas locs)
        (analyze_articles (mkCrawler areas locs) scorer raws) ts).locations →
      l ∈ defaultLocationKeywords.map Prod.fst) := by
  have hmk : ∀ (A L : List String) (txt ct : String),
      ct ∈ find_market_areas (mkCrawler A L) txt →
      ct ∈ defaultMarketKeywords.map Prod.fst ∧ ct ∈ A.map strLower := by
    intro A L txt ct h
    have h2 : ct ∈ findCategories (A.map strLower) defaultMarketKeywords txt := h
    rcases mem_findCategories.1 h2 with ⟨kws, hmem, htr, _⟩
    exact ⟨List.mem_map.2 ⟨(ct, kws), hmem, rfl⟩, htr⟩
  have hlc : ∀ (A L : List String) (txt ct : String),
      ct ∈ find_locations (mkCrawler A L) txt →
      ct ∈ defaultLocationKeywords.map Prod.fst ∧ ct ∈ L.map strLower := by
    intro A L txt ct h
    have h2 : ct ∈ findCategories (L.map strLower) defaultLocationKeywords txt := h
    rcases mem_findCategories.1 h2 with ⟨kws, hmem, htr, _⟩
    exact ⟨List.mem_map.2 ⟨(ct, kws), hmem, rfl⟩, htr⟩
  have hart : ∀ (scorer : String → ℚ) (raws : List RawArticle) (a : NewsArticle),
      a ∈ analyze_articles (mkCrawler areas locs) scorer raws →
      (∀ m, m ∈ a.market_areas → m ∈ defaultMarketKeywords.map Prod.fst) ∧
      (∀ l, l ∈ a.locations → l ∈ defaultLocationKeywords.map Prod.fst) := by
    intro scorer raws a h
    unfold analyze_articles at h
    rcases List.mem_filterMap.1 h with ⟨raw, _, heq⟩
    obtain ⟨ha, _, _⟩ := classify_article_eq_some heq
    subst ha
    constructor
    · intro m hm
      exact (hmk areas locs raw.content m hm).1
    · intro l hl
      exact (hlc areas locs raw.content l hl).1
  refine ⟨hmk areas locs text cat, hlc areas locs text cat, ?_, ?_, ?_, ?_, hart,
    ?_, ?_⟩
  · intro h
    exact absurd (hmk configMarketAreas configLocations text "salute" h).1 (by decide)
  · intro h
    exact absurd (hmk configMarketAreas configLocations text "turismo" h).1 (by decide)
  · intro h
    exact absurd (hlc configMarketAreas configLocations text "francia" h).1 (by decide)
  · intro h
    exact absurd (hlc configMarketAreas configLocations text "regno unito" h).1
      (by decide)
  · intro scorer raws ts m st h
    obtain ⟨m2, _, hkey, _, hne⟩ := mem_buildDict h
    have hm : m2 = m := hkey
    subst hm
    obtain ⟨a, ha, hpa⟩ := exists_of_filter_ne_nil hne
    exact (hart scorer raws a ha).1 m2 (of_decide_eq_true hpa)
  · intro scorer raws ts l st h
    obtain ⟨l2, _, hkey, _, hne⟩ := mem_buildDict h
    have hl : l2 = l := hkey
    subst hl
    obtain ⟨a, ha, hpa⟩ := exists_of_filter_ne_nil hne
    exact (hart scorer raws a ha).2 l2 (of_decide_eq_true hpa)

/-- Witness for C10: tagging the text `tech` with the shipped config lists
yields `tecnologia`, which is a dictionary key and a tracked category. -/
theorem effective_vocabulary_witness :
    "tecnologia" ∈ defaultMarketKeywords.map Prod.fst ∧
    "tecnologia" ∈ configMarketAreas.map strLower :=
  (effective_vocabulary configMarketAreas configLocations "tech" "tecnologia").1
    (by decide)

end Crawler
